import Mathlib

/-!
Shallow embedding of the ChronoSketch stroke geometry and animation engine
(src/unnamed/part_002 = the geometry module, src/components/DrawingCanvas.tsx,
src/App.tsx). JavaScript numbers are modelled as real numbers; JS arrays as
lists, with out-of-bounds reads modelled by List.getD defaults at the places
where the source is only ever called in bounds.
-/

namespace ChronoSketch

noncomputable section

/-- 2D point in canvas pixel space (types: interface Point). -/
@[ext]
structure Point where
  x : ℝ
  y : ℝ

/-- Squared distance (geometry: distSq). -/
def distSq (p1 p2 : Point) : ℝ :=
  (p2.x - p1.x) * (p2.x - p1.x) + (p2.y - p1.y) * (p2.y - p1.y)

/-- Euclidean distance (geometry: dist). -/
def dist (p1 p2 : Point) : ℝ := Real.sqrt (distSq p1 p2)

/-- Sum of consecutive segment lengths (geometry: getPathLength). -/
def getPathLength : List Point → ℝ
  | p :: q :: rest => dist p q + getPathLength (q :: rest)
  | _ => 0

/-- Scalar linear interpolation (geometry: lerp). -/
def lerp (a b t : ℝ) : ℝ := a + (b - a) * t

/-- Point linear interpolation (geometry: lerpPoint). -/
def lerpPoint (p1 p2 : Point) (t : ℝ) : Point :=
  ⟨p1.x + (p2.x - p1.x) * t, p1.y + (p2.y - p1.y) * t⟩

/-- The easing curve selector (types: enum EasingType). -/
inductive EasingType where
  | LINEAR
  | EASE_IN
  | EASE_OUT
  | EASE_IN_OUT
  | SINE
  | ELASTIC
deriving DecidableEq

/-- Easing functions (geometry: applyEasing). -/
def applyEasing (t : ℝ) : EasingType → ℝ
  | .LINEAR => t
  | .EASE_IN => t * t
  | .EASE_OUT => t * (2 - t)
  | .EASE_IN_OUT => if t < 0.5 then 2 * t * t else -1 + (4 - 2 * t) * t
  | .SINE => (1 - Real.cos (t * Real.pi)) / 2
  | .ELASTIC =>
      if t = 0 ∨ t = 1 then t
      else
        let p : ℝ := 0.3
        (2 : ℝ) ^ (-10 * t) * Real.sin ((t - p / 4) * (2 * Real.pi) / p) + 1

/-- Loop of the binary search (geometry: getIndexForLength). `ans`, `l`, `r`
are the loop variables; the source's `r` would become `-1` exactly when
`mid = 0` and the probe exceeds the target, upon which the JS loop exits with
`ans`, modelled here by the `mid = 0` case of that branch. `(l + r) >> 1` is
floor division by two on non-negative operands. -/
def getIndexForLengthGo (lengths : List ℝ) (target : ℝ) (ans l r : ℕ) : ℕ :=
  if l ≤ r then
    let mid := (l + r) / 2
    if lengths.getD mid 0 ≤ target then
      getIndexForLengthGo lengths target mid (mid + 1) r
    else
      match _hm : mid with
      | 0 => ans
      | m + 1 => getIndexForLengthGo lengths target ans l m
  else ans
termination_by r + 1 - l
decreasing_by
  · omega
  · omega

/-- Binary search for the highest index i with lengths[i] <= target
(geometry: getIndexForLength). In the source `r` starts at
`lengths.length - 1`, which is `-1` for an empty array so the loop never
runs and `0` is returned; natural subtraction gives `r = 0` instead, but
the loop then still returns the initial `ans = 0` for an empty array. -/
def getIndexForLength (lengths : List ℝ) (target : ℝ) : ℕ :=
  getIndexForLengthGo lengths target 0 0 (lengths.length - 1)

/-- Distance of `p` from the chord `start`..`end_` used by the
Ramer-Douglas-Peucker scan (geometry: body of the simplifyPoints loop). -/
def rdpDist (p start end_ : Point) : ℝ :=
  let dx := end_.x - start.x
  let dy := end_.y - start.y
  let l2 := dx * dx + dy * dy
  if l2 = 0 then dist p start
  else
    let t := ((p.x - start.x) * dx + (p.y - start.y) * dy) / l2
    if t < 0 then dist p start
    else if t > 1 then dist p end_
    else dist p ⟨start.x + t * dx, start.y + t * dy⟩

/-- The scan `for (i = 1; i < points.length - 1; i++)` of simplifyPoints:
fold that tracks `(maxDist, index)` starting from `(0, 0)` and updates
whenever a strictly larger distance is found. -/
def rdpScan (points : List Point) (start end_ : Point) : ℝ × ℕ :=
  (List.range' 1 (points.length - 2)).foldl
    (fun acc i =>
      let d := rdpDist (points.getD i ⟨0, 0⟩) start end_
      if d > acc.1 then (d, i) else acc)
    (0, 0)

/-- Ramer-Douglas-Peucker simplification (geometry: simplifyPoints).
`points.slice(0, index + 1)` is `take (index + 1)` and `points.slice(index)`
is `drop index`; `left.slice(0, -1)` is `dropLast`. -/
def simplifyPoints (points : List Point) (tolerance : ℝ) : List Point :=
  if h0 : points.length ≤ 2 ∨ tolerance ≤ 0 then points
  else
    let start := points.getD 0 ⟨0, 0⟩
    let end_ := points.getD (points.length - 1) ⟨0, 0⟩
    let md := rdpScan points start end_
    if h1 : md.1 > tolerance then
      let left := simplifyPoints (points.take (md.2 + 1)) tolerance
      let right := simplifyPoints (points.drop md.2) tolerance
      left.dropLast ++ right
    else [start, end_]
termination_by points.length
decreasing_by
all_goals
  have key : ∀ (g : ℝ × ℕ → ℕ → ℝ × ℕ), (∀ acc i, g acc i = acc ∨ (g acc i).2 = i) →
      ∀ (l : List ℕ) (acc : ℝ × ℕ), List.foldl g acc l = acc ∨ (List.foldl g acc l).2 ∈ l := by
    intro g hg l
    induction l with
    | nil => intro acc; exact Or.inl rfl
    | cons x xs ih =>
      intro acc
      rcases ih (g acc x) with h | h
      · rw [List.foldl_cons, h]
        rcases hg acc x with h2 | h2
        · exact Or.inl h2
        · exact Or.inr (by rw [h2]; exact List.mem_cons_self x xs)
      · exact Or.inr (List.mem_cons_of_mem x h)
all_goals
  have hsc : rdpScan points (points.getD 0 ⟨0, 0⟩) (points.getD (points.length - 1) ⟨0, 0⟩)
      = (0, 0) ∨
      (rdpScan points (points.getD 0 ⟨0, 0⟩) (points.getD (points.length - 1) ⟨0, 0⟩)).2
        ∈ List.range' 1 (points.length - 2) := by
    apply key
    intro acc i
    dsimp only
    split
    · exact Or.inr rfl
    · exact Or.inl rfl
all_goals
  rcases hsc with h | h
  · exfalso
    have h1' : (rdpScan points (points.getD 0 ⟨0, 0⟩)
        (points.getD (points.length - 1) ⟨0, 0⟩)).1 > tolerance := h1
    rw [h] at h1'
    push_neg at h0
    norm_num at h1'
    linarith [h0.2]
  · rw [List.mem_range'] at h
    simp only [List.length_take, List.length_drop]
    omega

/-- One pass of corner cutting over consecutive pairs (geometry: the inner
loop of smoothPoints, pushing the 25% and 75% points of each segment). -/
def chaikinPairs : List Point → List Point
  | p0 :: p1 :: rest =>
      ⟨0.75 * p0.x + 0.25 * p1.x, 0.75 * p0.y + 0.25 * p1.y⟩ ::
      ⟨0.25 * p0.x + 0.75 * p1.x, 0.25 * p0.y + 0.75 * p1.y⟩ ::
      chaikinPairs (p1 :: rest)
  | _ => []

/-- One iteration of Chaikin smoothing: keep the first point, cut every
corner, keep the last point (geometry: one `k` iteration of smoothPoints). -/
def chaikinOnce (current : List Point) : List Point :=
  match current with
  | [] => []
  | p :: rest => (p :: chaikinPairs (p :: rest)) ++ [(p :: rest).getLast (by simp)]

/-- Chaikin's smoothing (geometry: smoothPoints); `iterations` is the already
floored iteration count. -/
def smoothPoints (points : List Point) (iterations : ℤ) : List Point :=
  if iterations ≤ 0 ∨ points.length < 3 then points
  else chaikinOnce^[iterations.toNat] points

/-- The path canonicalizer (geometry: processPoints): simplify, then smooth
with the floored smoothing count. -/
def processPoints (points : List Point) (smoothing simplification : ℝ) : List Point :=
  smoothPoints (simplifyPoints points simplification) ⌊smoothing⌋

/-- Axis-aligned bounding box (types: interface Bounds). -/
structure Bounds where
  minX : ℝ
  maxX : ℝ
  minY : ℝ
  maxY : ℝ

/-- The ribbon cache (types: interface PrecomputedRibbon); `bounds` is
optional in the source and absent on the degenerate empty ribbon. -/
structure PrecomputedRibbon where
  left : List Point
  right : List Point
  cumulativeLengths : List ℝ
  bounds : Option Bounds

/-- The settings record taken by computeRibbon; `taperEasing` is an optional
field defaulted with `|| EasingType.LINEAR` at its use site. -/
structure RibbonSettings where
  width : ℝ
  taper : ℝ
  taperEasing : Option EasingType

/-- JS `x || 1` on a non-negative number: 0 is falsy. Used for the
normal-length fallback in computeRibbon. -/
def jsOrOne (x : ℝ) : ℝ := if x = 0 then 1 else x

/-- Per-vertex normal of computeRibbon: one-sided difference at the two ends,
central difference at interior vertices, each normalised by
`Math.sqrt(dx*dx + dy*dy) || 1`. -/
def normalAt (points : List Point) (i : ℕ) : ℝ × ℝ :=
  let p := points.getD i ⟨0, 0⟩
  if i = 0 then
    let next := points.getD (i + 1) ⟨0, 0⟩
    let dx := next.x - p.x
    let dy := next.y - p.y
    let len := jsOrOne (Real.sqrt (dx * dx + dy * dy))
    (-dy / len, dx / len)
  else if i = points.length - 1 then
    let prev := points.getD (i - 1) ⟨0, 0⟩
    let dx := p.x - prev.x
    let dy := p.y - prev.y
    let len := jsOrOne (Real.sqrt (dx * dx + dy * dy))
    (-dy / len, dx / len)
  else
    let prev := points.getD (i - 1) ⟨0, 0⟩
    let next := points.getD (i + 1) ⟨0, 0⟩
    let dx := next.x - prev.x
    let dy := next.y - prev.y
    let len := jsOrOne (Real.sqrt (dx * dx + dy * dy))
    (-dy / len, dx / len)

/-- The running `currentDist` of the computeRibbon loop after processing
vertex `i`: it starts at 0 and gains `dist(points[i-1], points[i])` at each
`i > 0`. -/
def cumAt (points : List Point) : ℕ → ℝ
  | 0 => 0
  | i + 1 => cumAt points i + dist (points.getD i ⟨0, 0⟩) (points.getD (i + 1) ⟨0, 0⟩)

/-- The `currentWidth` of the computeRibbon loop at vertex `i`: the base
width, taper-scaled through the eased local progress when inside a taper
zone, and clamped to the 0.1 floor. -/
def ribbonWidthAt (points : List Point) (st : RibbonSettings) (i : ℕ) : ℝ :=
  let totalLength := getPathLength points
  let taperLen := totalLength * (st.taper / 100)
  let currentDist := cumAt points i
  let baseWidth := st.width
  let w :=
    if taperLen > 0 then
      let t : ℝ :=
        if currentDist < taperLen then currentDist / taperLen
        else if currentDist > totalLength - taperLen then
          (totalLength - currentDist) / taperLen
        else -1
      if t ≥ 0 then baseWidth * applyEasing t (st.taperEasing.getD .LINEAR)
      else baseWidth
    else baseWidth
  max 0.1 w

/-- The left offset point pushed at vertex `i` of the computeRibbon loop. -/
def ribbonLeftAt (points : List Point) (st : RibbonSettings) (i : ℕ) : Point :=
  let p := points.getD i ⟨0, 0⟩
  let n := normalAt points i
  let halfWidth := ribbonWidthAt points st i / 2
  ⟨p.x + n.1 * halfWidth, p.y + n.2 * halfWidth⟩

/-- The right offset point pushed at vertex `i` of the computeRibbon loop. -/
def ribbonRightAt (points : List Point) (st : RibbonSettings) (i : ℕ) : Point :=
  let p := points.getD i ⟨0, 0⟩
  let n := normalAt points i
  let halfWidth := ribbonWidthAt points st i / 2
  ⟨p.x - n.1 * halfWidth, p.y - n.2 * halfWidth⟩

/-- Minimum of a list of reals; over the non-empty list of emitted
coordinates this equals the source's fold of `Math.min` from `Infinity`. -/
def listMin (l : List ℝ) : ℝ := l.foldl min (l.headD 0)

/-- Maximum of a list of reals; over the non-empty list of emitted
coordinates this equals the source's fold of `Math.max` from `-Infinity`. -/
def listMax (l : List ℝ) : ℝ := l.foldl max (l.headD 0)

/-- The ribbon builder (geometry: computeRibbon). The indexed loop is
modelled pointwise: vertex `i` contributes `ribbonLeftAt`/`ribbonRightAt`
and the cumulative length `cumAt`; fewer than 2 points yield the empty
ribbon. -/
def computeRibbon (points : List Point) (st : RibbonSettings) : PrecomputedRibbon :=
  if points.length < 2 then ⟨[], [], [], none⟩
  else
    let left := (List.range points.length).map (ribbonLeftAt points st)
    let right := (List.range points.length).map (ribbonRightAt points st)
    let cumulativeLengths := (List.range points.length).map (cumAt points)
    let xs := (left ++ right).map Point.x
    let ys := (left ++ right).map Point.y
    ⟨left, right, cumulativeLengths,
      some ⟨listMin xs, listMax xs, listMin ys, listMax ys⟩⟩

/-- Truncation toward zero, the rounding of the JS `%` operator. -/
def truncR (q : ℝ) : ℤ := if q < 0 then ⌈q⌉ else ⌊q⌋

/-- The JS remainder operator on reals: `x % y = x - y * trunc(x / y)`,
which takes the sign of the dividend. -/
def jsMod (x y : ℝ) : ℝ := x - y * truncR (x / y)

/-- Animation modes (types: enum AnimationMode). -/
inductive AnimationMode where
  | LOOP
  | YOYO
  | FLOW
deriving DecidableEq

/-- The animation clock of DrawingCanvas.drawInstance (and identically of
App.generatePathsForInstance): maps mode, easing, speed, phase, per-copy
phase offset and time to the visible `(localStart, localEnd)` window. The
LOOP arm is the source's `else` branch. -/
def animWindow (mode : AnimationMode) (easing : Option EasingType)
    (speed phase phaseOffset time totalLength : ℝ) : ℝ × ℝ :=
  let totalPhase := (time * speed + phase) + phaseOffset
  match mode with
  | .YOYO =>
      let cycle := jsMod totalPhase 2
      let cycle := if cycle < 0 then cycle + 2 else cycle
      let rawProgress := if cycle > 1 then 2 - cycle else cycle
      let easedProgress := applyEasing rawProgress (easing.getD .LINEAR)
      (0, totalLength * easedProgress)
  | .FLOW =>
      let cycle := jsMod totalPhase 2
      let cycle := if cycle < 0 then cycle + 2 else cycle
      if cycle ≤ 1 then
        let easedProgress := applyEasing cycle (easing.getD .LINEAR)
        (0, totalLength * easedProgress)
      else
        let easedProgress := applyEasing (cycle - 1) (easing.getD .LINEAR)
        (totalLength * easedProgress, totalLength)
  | .LOOP =>
      let rawProgress := jsMod totalPhase 1
      let rawProgress := if rawProgress < 0 then rawProgress + 1 else rawProgress
      let easedProgress := applyEasing rawProgress (easing.getD .LINEAR)
      (0, totalLength * easedProgress)

/-- Symmetry families (types: enum SymmetryType). -/
inductive SymmetryType where
  | NONE
  | MIRROR_X
  | MIRROR_Y
  | MIRROR_XY
  | RADIAL
  | GRID
deriving DecidableEq

/-- Symmetry configuration (types: interface SymmetrySettings). -/
structure SymmetrySettings where
  type : SymmetryType
  copies : ℕ
  phaseShift : ℝ
  gridGap : ℝ

/-- Canvas `ctx.translate(tx, ty)` acting on a drawn point. -/
def translateMap (tx ty : ℝ) : Point → Point := fun p => ⟨p.x + tx, p.y + ty⟩

/-- Canvas `ctx.scale(sx, sy)` acting on a drawn point. -/
def scaleMap (sx sy : ℝ) : Point → Point := fun p => ⟨p.x * sx, p.y * sy⟩

/-- Canvas `ctx.rotate(a)` acting on a drawn point. -/
def rotateMap (a : ℝ) : Point → Point :=
  fun p => ⟨p.x * Real.cos a - p.y * Real.sin a, p.x * Real.sin a + p.y * Real.cos a⟩

/-- Modelled from the spec: rotation by angle `a` (radians) about a pivot
`c`, the intended meaning of "rotated by i*360/copies degrees about the
viewport center". -/
def rotAbout (c : Point) (a : ℝ) : Point → Point :=
  fun p =>
    ⟨c.x + (p.x - c.x) * Real.cos a - (p.y - c.y) * Real.sin a,
     c.y + (p.x - c.x) * Real.sin a + (p.y - c.y) * Real.cos a⟩

/-- The semantics of the SVG transform attribute `rotate(deg, cx, cy)`:
rotation about `(cx, cy)` by `deg` degrees. -/
def svgRotateDeg (deg cx cy : ℝ) : Point → Point :=
  rotAbout ⟨cx, cy⟩ (deg * Real.pi / 180)

/-- The integers from `a` to `b` inclusive, the range of a
`for (v = a; v <= b; v++)` loop. -/
def intRange (a b : ℤ) : List ℤ :=
  (List.range (b + 1 - a).toNat).map (fun k => a + (k : ℤ))

/-- The set of grid translation cells enumerated by checkHit
(DrawingCanvas.checkHit, GRID branch): the untransformed test point is cell
`(0, 0)`, and the loop adds every other `(gx, gy)` with
`|gx| <= ceil(width/gap) + 1` and `|gy| <= ceil(height/gap) + 1`; the range
depends only on the viewport and the gap. -/
def gridHitOffsets (gap width height : ℝ) : List (ℤ × ℤ) :=
  let rangeX : ℤ := ⌈width / gap⌉ + 1
  let rangeY : ℤ := ⌈height / gap⌉ + 1
  (0, 0) ::
    ((intRange (-rangeX) rangeX).flatMap fun gx =>
      (intRange (-rangeY) rangeY).filterMap fun gy =>
        if gx = 0 ∧ gy = 0 then none else some (gx, gy))

/-- The set of grid translation cells enumerated when rendering
(DrawingCanvas.renderSymmetries, GRID branch) and when exporting
(App.getStrokeSVG, GRID branch), derived from the stroke bounds, the
viewport and a padding (`strokeWidth + 50` for the canvas, `stroke.width`
for the SVG exporter). -/
def gridRenderOffsets (gap width height pad minX maxX minY maxY : ℝ) : List (ℤ × ℤ) :=
  let startX : ℤ := ⌊(-maxX - pad) / gap⌋
  let endX : ℤ := ⌈(width - minX + pad) / gap⌉
  let startY : ℤ := ⌊(-maxY - pad) / gap⌋
  let endY : ℤ := ⌈(height - minY + pad) / gap⌉
  (intRange startX endX).flatMap fun x =>
    (intRange startY endY).map fun y => (x, y)

/-- The instance enumeration of DrawingCanvas.renderSymmetries: the ordered
list of `(phaseOffset, canvas transform)` pairs for which `drawInstance` is
invoked. `hasPoints` is `points.length > 0`. -/
def symmetryInstances (sym : SymmetrySettings) (strokeWidth : ℝ)
    (bounds : Option Bounds) (hasPoints : Bool) (width height : ℝ) :
    List (ℝ × (Point → Point)) :=
  let centerX := width / 2
  let centerY := height / 2
  match sym.type with
  | .NONE => [(0, id)]
  | .MIRROR_X =>
      [(0, id),
       (0, translateMap centerX centerY ∘ scaleMap (-1) 1 ∘
            translateMap (-centerX) (-centerY))]
  | .MIRROR_Y =>
      [(0, id),
       (0, translateMap centerX centerY ∘ scaleMap 1 (-1) ∘
            translateMap (-centerX) (-centerY))]
  | .MIRROR_XY =>
      [(0, id),
       (0, translateMap centerX centerY ∘ scaleMap (-1) 1 ∘
            translateMap (-centerX) (-centerY)),
       (0, translateMap centerX centerY ∘ scaleMap 1 (-1) ∘
            translateMap (-centerX) (-centerY)),
       (0, translateMap centerX centerY ∘ scaleMap (-1) (-1) ∘
            translateMap (-centerX) (-centerY))]
  | .RADIAL =>
      let angleStep := 2 * Real.pi / (sym.copies : ℝ)
      (List.range sym.copies).map fun (i : ℕ) =>
        ((i : ℝ) * sym.phaseShift,
         translateMap centerX centerY ∘ rotateMap ((i : ℝ) * angleStep) ∘
           translateMap (-centerX) (-centerY))
  | .GRID =>
      let gap := if sym.gridGap = 0 then 100 else sym.gridGap
      match bounds, hasPoints with
      | some b, true =>
          (gridRenderOffsets gap width height (strokeWidth + 50)
              b.minX b.maxX b.minY b.maxY).map fun gc =>
            (0, translateMap (gc.1 * gap) (gc.2 * gap))
      | _, _ => [(0, id)]

/-- The instance enumeration of App.getStrokeSVG: the ordered list of
`(phaseOffset, transform)` pairs for which `generatePathsForInstance` is
invoked, with each emitted SVG transform attribute read semantically
(`translate` then `scale` compose left-to-right onto the drawn point;
`rotate(deg, cx, cy)` is a pivoted rotation in degrees). -/
def svgSymmetryInstances (sym : SymmetrySettings) (strokeWidth : ℝ)
    (bounds : Option Bounds) (width height : ℝ) :
    List (ℝ × (Point → Point)) :=
  let centerX := width / 2
  let centerY := height / 2
  match sym.type with
  | .NONE => [(0, id)]
  | .MIRROR_X =>
      [(0, id), (0, translateMap width 0 ∘ scaleMap (-1) 1)]
  | .MIRROR_Y =>
      [(0, id), (0, translateMap 0 height ∘ scaleMap 1 (-1))]
  | .MIRROR_XY =>
      [(0, id),
       (0, translateMap width 0 ∘ scaleMap (-1) 1),
       (0, translateMap 0 height ∘ scaleMap 1 (-1)),
       (0, translateMap width height ∘ scaleMap (-1) (-1))]
  | .RADIAL =>
      let angleStep := 360 / (sym.copies : ℝ)
      (List.range sym.copies).map fun (i : ℕ) =>
        ((i : ℝ) * sym.phaseShift, svgRotateDeg ((i : ℝ) * angleStep) centerX centerY)
  | .GRID =>
      let gap := if sym.gridGap = 0 then 100 else sym.gridGap
      match bounds with
      | some b =>
          (gridRenderOffsets gap width height strokeWidth
              b.minX b.maxX b.minY b.maxY).map fun gc =>
            (0, translateMap (gc.1 * gap) (gc.2 * gap))
      | none => [(0, id)]

/-- Everything the arc-length window extraction computes: boundary indices,
clamped interpolation factors, interpolated boundary points, and the whole
interior vertices emitted forward on the left edge and backward on the
right edge. -/
structure WindowResult where
  startIndex : ℕ
  endIndex : ℕ
  startT : ℝ
  endT : ℝ
  pStartLeft : Point
  pStartRight : Point
  pEndLeft : Point
  pEndRight : Point
  leftVerts : List Point
  rightVerts : List Point

/-- The window extraction of the interactive renderer
(DrawingCanvas.renderStrokePath): guards, index search, segment-local
interpolation with the ternary clamp `t < 0 ? 0 : (t > 1 ? 1 : t)`, the
`left[startIndex + 1] || left[startIndex]` fallback, and the two emission
loops `for (i = startIndex + 1; i < endIndex; i++)` (left, forward) and
`for (i = endIndex - 1; i > startIndex; i--)` (right, backward). -/
def windowCanvas (pre : PrecomputedRibbon) (startLength endLength : ℝ) :
    Option WindowResult :=
  if pre.left.length < 2 then none
  else if endLength ≤ startLength then none
  else
    let left := pre.left
    let right := pre.right
    let cumulativeLengths := pre.cumulativeLengths
    let count := cumulativeLengths.length
    let startSearchIdx := getIndexForLength cumulativeLengths startLength
    let startIndex := min startSearchIdx (count - 2)
    let endSearchIdx := getIndexForLength cumulativeLengths endLength
    let endIndex := min (endSearchIdx + 1) (count - 1)
    let startSegmentLen :=
      cumulativeLengths.getD (startIndex + 1) 0 - cumulativeLengths.getD startIndex 0
    let endSegmentLen :=
      cumulativeLengths.getD endIndex 0 - cumulativeLengths.getD (endIndex - 1) 0
    let startT0 :=
      if startSegmentLen > 0 then
        (startLength - cumulativeLengths.getD startIndex 0) / startSegmentLen
      else 0
    let startT := if startT0 < 0 then 0 else if startT0 > 1 then 1 else startT0
    let endT0 :=
      if endIndex > 0 ∧ endSegmentLen > 0 then
        (endLength - cumulativeLengths.getD (endIndex - 1) 0) / endSegmentLen
      else 1
    let endT := if endT0 < 0 then 0 else if endT0 > 1 then 1 else endT0
    let ls1 := left.getD startIndex ⟨0, 0⟩
    let ls2 := (left.getD (startIndex + 1) ls1)
    let rs1 := right.getD startIndex ⟨0, 0⟩
    let rs2 := (right.getD (startIndex + 1) rs1)
    let pStartLeft : Point := ⟨lerp ls1.x ls2.x startT, lerp ls1.y ls2.y startT⟩
    let pStartRight : Point := ⟨lerp rs1.x rs2.x startT, lerp rs1.y rs2.y startT⟩
    let idxEndBase := endIndex - 1
    let idxEndNext := endIndex
    let le1 := left.getD idxEndBase ⟨0, 0⟩
    let le2 := left.getD idxEndNext ⟨0, 0⟩
    let re1 := right.getD idxEndBase ⟨0, 0⟩
    let re2 := right.getD idxEndNext ⟨0, 0⟩
    let pEndLeft : Point := ⟨lerp le1.x le2.x endT, lerp le1.y le2.y endT⟩
    let pEndRight : Point := ⟨lerp re1.x re2.x endT, lerp re1.y re2.y endT⟩
    let interior := List.range' (startIndex + 1) (endIndex - (startIndex + 1))
    some
      { startIndex := startIndex
        endIndex := endIndex
        startT := startT
        endT := endT
        pStartLeft := pStartLeft
        pStartRight := pStartRight
        pEndLeft := pEndLeft
        pEndRight := pEndRight
        leftVerts := interior.map (fun i => left.getD i ⟨0, 0⟩)
        rightVerts := interior.reverse.map (fun i => right.getD i ⟨0, 0⟩) }

/-- The window extraction of the vector exporter
(App.getStrokeSVG.generatePathsForInstance): the same computation written
with `Math.max(0, Math.min(1, t))` clamps and only the
`localEnd <= localStart` guard, the emitted path vertices being the same
forward left and backward right loops. -/
def windowSvg (pre : PrecomputedRibbon) (localStart localEnd : ℝ) :
    Option WindowResult :=
  if localEnd ≤ localStart then none
  else
    let left := pre.left
    let right := pre.right
    let cumulativeLengths := pre.cumulativeLengths
    let count := cumulativeLengths.length
    let startSearchIdx := getIndexForLength cumulativeLengths localStart
    let startIndex := min startSearchIdx (count - 2)
    let endSearchIdx := getIndexForLength cumulativeLengths localEnd
    let endIndex := min (endSearchIdx + 1) (count - 1)
    let startSegmentLen :=
      cumulativeLengths.getD (startIndex + 1) 0 - cumulativeLengths.getD startIndex 0
    let endSegmentLen :=
      cumulativeLengths.getD endIndex 0 - cumulativeLengths.getD (endIndex - 1) 0
    let startT0 :=
      if startSegmentLen > 0 then
        (localStart - cumulativeLengths.getD startIndex 0) / startSegmentLen
      else 0
    let startT := max 0 (min 1 startT0)
    let endT0 :=
      if endIndex > 0 ∧ endSegmentLen > 0 then
        (localEnd - cumulativeLengths.getD (endIndex - 1) 0) / endSegmentLen
      else 1
    let endT := max 0 (min 1 endT0)
    let ls1 := left.getD startIndex ⟨0, 0⟩
    let ls2 := (left.getD (startIndex + 1) ls1)
    let rs1 := right.getD startIndex ⟨0, 0⟩
    let rs2 := (right.getD (startIndex + 1) rs1)
    let pStartLeft : Point := ⟨lerp ls1.x ls2.x startT, lerp ls1.y ls2.y startT⟩
    let pStartRight : Point := ⟨lerp rs1.x rs2.x startT, lerp rs1.y rs2.y startT⟩
    let idxEndBase := endIndex - 1
    let idxEndNext := endIndex
    let le1 := left.getD idxEndBase ⟨0, 0⟩
    let le2 := left.getD idxEndNext ⟨0, 0⟩
    let re1 := right.getD idxEndBase ⟨0, 0⟩
    let re2 := right.getD idxEndNext ⟨0, 0⟩
    let pEndLeft : Point := ⟨lerp le1.x le2.x endT, lerp le1.y le2.y endT⟩
    let pEndRight : Point := ⟨lerp re1.x re2.x endT, lerp re1.y re2.y endT⟩
    let interior := List.range' (startIndex + 1) (endIndex - (startIndex + 1))
    some
      { startIndex := startIndex
        endIndex := endIndex
        startT := startT
        endT := endT
        pStartLeft := pStartLeft
        pStartRight := pStartRight
        pEndLeft := pEndLeft
        pEndRight := pEndRight
        leftVerts := interior.map (fun i => left.getD i ⟨0, 0⟩)
        rightVerts := interior.reverse.map (fun i => right.getD i ⟨0, 0⟩) }

/-! ## Helper lemmas -/

theorem simplifyPoints_zero (ps : List Point) : simplifyPoints ps 0 = ps := by
  rw [simplifyPoints]
  exact dif_pos (Or.inr le_rfl)

theorem smoothPoints_zero (ps : List Point) : smoothPoints ps 0 = ps := by
  rw [smoothPoints]
  exact if_pos (Or.inl le_rfl)

theorem processPoints_zero (ps : List Point) : processPoints ps 0 0 = ps := by
  rw [processPoints, simplifyPoints_zero]
  rw [show ⌊(0 : ℝ)⌋ = 0 from Int.floor_zero]
  exact smoothPoints_zero ps

theorem dist_horiz (a b y : ℝ) (h : a ≤ b) :
    dist ⟨a, y⟩ ⟨b, y⟩ = b - a := by
  rw [dist, distSq]
  have h2 : (b - a) * (b - a) + (y - y) * (y - y) = (b - a) ^ 2 := by ring
  rw [h2, Real.sqrt_sq (by linarith)]

theorem dist_nonneg' (p q : Point) : 0 ≤ dist p q := Real.sqrt_nonneg _

/-! ## Claim theorems -/

/-- Claim C7: canonicalizing with zero parameters first changes nothing:
`processPoints (processPoints ps 0 0) s t = processPoints ps s t`, because
`processPoints` with smoothing 0 and simplification 0 is the identity. -/
theorem c7_canonicalize_zero_identity :
    ∀ (ps : List Point) (s t : ℝ),
      processPoints (processPoints ps 0 0) s t = processPoints ps s t ∧
      processPoints ps 0 0 = ps := by
  intro ps s t
  rw [processPoints_zero]
  exact ⟨rfl, rfl⟩

/-- Claim C4, counterexample: on a single-point input, computeRibbon returns
the empty ribbon, so `points.length = 1` while `precomputed.left.length = 0`
and the claimed equality fails. -/
theorem c4_counterexample :
    ¬ ((computeRibbon [(⟨0, 0⟩ : Point)] ⟨4, 0, some .LINEAR⟩).left.length
        = [(⟨0, 0⟩ : Point)].length) := by
  rw [computeRibbon]
  norm_num

/-- Claim C4, amended: the three ribbon arrays always have equal lengths,
and they additionally equal `points.length` for every input whose length is
not exactly 1 (a single point yields the empty ribbon while
`points.length = 1`). -/
theorem c4_ribbon_array_lengths :
    ∀ (points : List Point) (st : RibbonSettings),
      ((computeRibbon points st).left.length
          = (computeRibbon points st).right.length ∧
        (computeRibbon points st).right.length
          = (computeRibbon points st).cumulativeLengths.length) ∧
      (points.length ≠ 1 →
        (computeRibbon points st).left.length = points.length ∧
        (computeRibbon points st).right.length = points.length ∧
        (computeRibbon points st).cumulativeLengths.length = points.length) := by
  intro points st
  rw [computeRibbon]
  by_cases h : points.length < 2
  · rw [if_pos h]
    refine ⟨⟨rfl, rfl⟩, ?_⟩
    intro h1
    simp only [List.length_nil]
    omega
  · rw [if_neg h]
    refine ⟨⟨?_, ?_⟩, fun _ => ⟨?_, ?_, ?_⟩⟩ <;>
      simp only [List.length_map, List.length_range]

/-- Witness for the amended Claim C4 at a concrete two-point stroke. -/
theorem c4_ribbon_array_lengths_witness :
    (computeRibbon [(⟨0, 0⟩ : Point), ⟨3, 4⟩] ⟨4, 0, some .LINEAR⟩).left.length
      = [(⟨0, 0⟩ : Point), ⟨3, 4⟩].length :=
  ((c4_ribbon_array_lengths [⟨0, 0⟩, ⟨3, 4⟩] ⟨4, 0, some .LINEAR⟩).2
    (by norm_num)).1

/-- Claim C8: with base width 10, taper 50 and linear taper easing on a
straight 100-unit polyline, the per-vertex width at cumulative distance 25
from either end is exactly 5; and for every input the taper-scaled width is
clamped to the floor 0.1, so half-widths are strictly positive. -/
theorem c8_taper_width_and_floor :
    (ribbonWidthAt [(⟨0, 0⟩ : Point), ⟨25, 0⟩, ⟨75, 0⟩, ⟨100, 0⟩]
        ⟨10, 50, some .LINEAR⟩ 1 = 5 ∧
      ribbonWidthAt [(⟨0, 0⟩ : Point), ⟨25, 0⟩, ⟨75, 0⟩, ⟨100, 0⟩]
        ⟨10, 50, some .LINEAR⟩ 2 = 5) ∧
    ∀ (pts : List Point) (st : RibbonSettings) (i : ℕ),
      (0.1 : ℝ) ≤ ribbonWidthAt pts st i ∧ 0 < ribbonWidthAt pts st i / 2 := by
  have d1 : dist ⟨0, 0⟩ ⟨25, 0⟩ = 25 := by
    have h := dist_horiz 0 25 0 (by norm_num)
    norm_num at h
    exact h
  have d2 : dist ⟨25, 0⟩ ⟨75, 0⟩ = 50 := by
    have h := dist_horiz 25 75 0 (by norm_num)
    norm_num at h
    exact h
  have d3 : dist ⟨75, 0⟩ ⟨100, 0⟩ = 25 := by
    have h := dist_horiz 75 100 0 (by norm_num)
    norm_num at h
    exact h
  have hlen : getPathLength [(⟨0, 0⟩ : Point), ⟨25, 0⟩, ⟨75, 0⟩, ⟨100, 0⟩] = 100 := by
    simp only [getPathLength]
    rw [d1, d2, d3]
    norm_num
  have hc1 : cumAt [(⟨0, 0⟩ : Point), ⟨25, 0⟩, ⟨75, 0⟩, ⟨100, 0⟩] 1 = 25 := by
    simp only [cumAt, List.getD]
    simp [d1]
  have hc2 : cumAt [(⟨0, 0⟩ : Point), ⟨25, 0⟩, ⟨75, 0⟩, ⟨100, 0⟩] 2 = 75 := by
    simp only [cumAt, List.getD]
    simp [d1, d2]
    norm_num
  refine ⟨⟨?_, ?_⟩, ?_⟩
  · simp only [ribbonWidthAt, Option.getD]
    rw [hlen, hc1]
    norm_num [applyEasing]
  · simp only [ribbonWidthAt, Option.getD]
    rw [hlen, hc2]
    norm_num [applyEasing]
  · intro pts st i
    simp only [ribbonWidthAt]
    constructor
    · exact le_max_left _ _
    · positivity

theorem jsModWrap_bounds (x y : ℝ) (hy : 0 < y) :
    0 ≤ (if jsMod x y < 0 then jsMod x y + y else jsMod x y) ∧
      (if jsMod x y < 0 then jsMod x y + y else jsMod x y) < y := by
  have hy' : y ≠ 0 := ne_of_gt hy
  have key : ∀ c : ℝ, x - y * c = y * (x / y - c) := by
    intro c
    field_simp
  have hcase : (-y < jsMod x y ∧ jsMod x y ≤ 0) ∨ (0 ≤ jsMod x y ∧ jsMod x y < y) := by
    rw [jsMod, truncR]
    by_cases hq : x / y < 0
    · rw [if_pos hq, key]
      left
      have h1 := Int.le_ceil (x / y)
      have h2 := Int.ceil_lt_add_one (x / y)
      have h3 : (0 : ℝ) < x / y - ⌈x / y⌉ + 1 := by linarith
      have h4 : (0 : ℝ) < y * (x / y - ⌈x / y⌉ + 1) := mul_pos hy h3
      have h5 : x / y - (⌈x / y⌉ : ℝ) ≤ 0 := by linarith
      constructor
      · nlinarith
      · nlinarith
    · rw [if_neg hq, key]
      right
      have h1 := Int.floor_le (x / y)
      have h2 := Int.lt_floor_add_one (x / y)
      have h3 : (0 : ℝ) ≤ x / y - ⌊x / y⌋ := by linarith
      have h4 : x / y - (⌊x / y⌋ : ℝ) < 1 := by linarith
      constructor
      · exact mul_nonneg (le_of_lt hy) h3
      · nlinarith
  rcases hcase with ⟨ha, hb⟩ | ⟨ha, hb⟩
  · by_cases hm : jsMod x y < 0
    · rw [if_pos hm]
      exact ⟨by linarith, by linarith⟩
    · rw [if_neg hm]
      push_neg at hm
      exact ⟨hm, by linarith⟩
  · rw [if_neg (not_lt.mpr ha)]
    exact ⟨ha, hb⟩

theorem applyEasing_mem (t : ℝ) (e : EasingType) (he : e ≠ .ELASTIC)
    (h0 : 0 ≤ t) (h1 : t ≤ 1) : 0 ≤ applyEasing t e ∧ applyEasing t e ≤ 1 := by
  cases e with
  | LINEAR => exact ⟨h0, h1⟩
  | EASE_IN =>
      simp only [applyEasing]
      constructor <;> nlinarith
  | EASE_OUT =>
      simp only [applyEasing]
      constructor <;> nlinarith
  | EASE_IN_OUT =>
      simp only [applyEasing]
      by_cases h : t < 0.5
      · rw [if_pos h]
        constructor <;> nlinarith
      · rw [if_neg h]
        push_neg at h
        norm_num at h
        constructor <;> nlinarith
  | SINE =>
      simp only [applyEasing]
      have hc1 := Real.cos_le_one (t * Real.pi)
      have hc2 := Real.neg_one_le_cos (t * Real.pi)
      constructor <;> linarith
  | ELASTIC => exact absurd rfl he

/-- Claim C2, counterexample: with the ELASTIC easing the eased progress
overshoots 1, so in LOOP mode at `totalPhase = 3/20` the window end exceeds
`totalLength = 1`: the eased value is `2^(-3/2) * sin(pi/2) + 1 > 1`. -/
theorem c2_counterexample :
    ¬ ((animWindow .LOOP (some .ELASTIC) 1 0 0 (3 / 20) 1).2 ≤ 1) := by
  simp only [animWindow, Option.getD]
  have hmod : jsMod ((3 / 20 : ℝ) * 1 + 0 + 0) 1 = 3 / 20 := by
    rw [jsMod, truncR]
    norm_num
  rw [hmod]
  rw [if_neg (by norm_num)]
  simp only [applyEasing]
  rw [if_neg (by norm_num)]
  have harg : ((3 : ℝ) / 20 - 0.3 / 4) * (2 * Real.pi) / 0.3 = Real.pi / 2 := by
    ring
  rw [harg, Real.sin_pi_div_two]
  have hpow : (0 : ℝ) < (2 : ℝ) ^ (-10 * (3 / 20 : ℝ)) :=
    Real.rpow_pos_of_pos (by norm_num) _
  push_neg
  nlinarith

/-- Claim C2, amended: for every animation mode, every easing curve other
than ELASTIC, every speed, phase, per-copy phase offset and wall time, and
every `totalLength >= 0`, the animation-clock window satisfies
`0 <= start <= end <= totalLength`. (ELASTIC is excluded: its eased value
can exceed 1, see the counterexample.) -/
theorem c2_window_in_range :
    ∀ (mode : AnimationMode) (easing : EasingType), easing ≠ .ELASTIC →
      ∀ (speed phase phaseOffset time totalLength : ℝ), 0 ≤ totalLength →
        0 ≤ (animWindow mode (some easing) speed phase phaseOffset time totalLength).1 ∧
        (animWindow mode (some easing) speed phase phaseOffset time totalLength).1
          ≤ (animWindow mode (some easing) speed phase phaseOffset time totalLength).2 ∧
        (animWindow mode (some easing) speed phase phaseOffset time totalLength).2
          ≤ totalLength := by
  intro mode easing he speed phase phaseOffset time totalLength hL
  cases mode with
  | LOOP =>
      simp only [animWindow, Option.getD]
      obtain ⟨hw0, hw1⟩ := jsModWrap_bounds ((time * speed + phase) + phaseOffset) 1 one_pos
      obtain ⟨he0, he1⟩ := applyEasing_mem _ easing he hw0 (le_of_lt hw1)
      refine ⟨le_refl 0, mul_nonneg hL he0, ?_⟩
      nlinarith
  | YOYO =>
      simp only [animWindow, Option.getD]
      obtain ⟨hw0, hw1⟩ := jsModWrap_bounds ((time * speed + phase) + phaseOffset) 2
        (by norm_num)
      set c := (if jsMod ((time * speed + phase) + phaseOffset) 2 < 0 then
        jsMod ((time * speed + phase) + phaseOffset) 2 + 2 else
        jsMod ((time * speed + phase) + phaseOffset) 2) with hc
      have hraw : 0 ≤ (if c > 1 then 2 - c else c) ∧ (if c > 1 then 2 - c else c) ≤ 1 := by
        by_cases h : c > 1
        · rw [if_pos h]
          exact ⟨by linarith, by linarith⟩
        · rw [if_neg h]
          push_neg at h
          exact ⟨hw0, h⟩
      obtain ⟨he0, he1⟩ := applyEasing_mem _ easing he hraw.1 hraw.2
      refine ⟨le_refl 0, mul_nonneg hL he0, ?_⟩
      nlinarith
  | FLOW =>
      simp only [animWindow, Option.getD]
      obtain ⟨hw0, hw1⟩ := jsModWrap_bounds ((time * speed + phase) + phaseOffset) 2
        (by norm_num)
      set c := (if jsMod ((time * speed + phase) + phaseOffset) 2 < 0 then
        jsMod ((time * speed + phase) + phaseOffset) 2 + 2 else
        jsMod ((time * speed + phase) + phaseOffset) 2) with hc
      by_cases h : c ≤ 1
      · rw [if_pos h]
        obtain ⟨he0, he1⟩ := applyEasing_mem _ easing he hw0 h
        refine ⟨le_refl 0, mul_nonneg hL he0, ?_⟩
        show totalLength * applyEasing c easing ≤ totalLength
        nlinarith
      · rw [if_neg h]
        push_neg at h
        obtain ⟨he0, he1⟩ := applyEasing_mem (c - 1) easing he (by linarith) (by linarith)
        refine ⟨mul_nonneg hL he0, ?_, le_refl totalLength⟩
        show totalLength * applyEasing (c - 1) easing ≤ totalLength
        nlinarith

/-- Witness for the amended Claim C2 at a concrete input. -/
theorem c2_window_in_range_witness :
    0 ≤ (animWindow .LOOP (some .LINEAR) 0 0 0 0 1).1 ∧
    (animWindow .LOOP (some .LINEAR) 0 0 0 0 1).1
      ≤ (animWindow .LOOP (some .LINEAR) 0 0 0 0 1).2 ∧
    (animWindow .LOOP (some .LINEAR) 0 0 0 0 1).2 ≤ 1 :=
  c2_window_in_range .LOOP .LINEAR (by decide) 0 0 0 0 1 (by norm_num)

theorem canvasRotate_eq (cx cy a : ℝ) :
    translateMap cx cy ∘ rotateMap a ∘ translateMap (-cx) (-cy)
      = rotAbout ⟨cx, cy⟩ a := by
  funext p
  simp only [Function.comp, translateMap, rotateMap, rotAbout]
  ext
  · dsimp
    ring
  · dsimp
    ring

theorem svgRotate_as_radians (i n : ℕ) (cx cy : ℝ) :
    svgRotateDeg ((i : ℝ) * (360 / (n : ℝ))) cx cy
      = rotAbout ⟨cx, cy⟩ ((i : ℝ) * (2 * Real.pi / (n : ℝ))) := by
  rw [svgRotateDeg]
  rw [show (i : ℝ) * (360 / (n : ℝ)) * Real.pi / 180
      = (i : ℝ) * (2 * Real.pi / (n : ℝ)) from by ring]

/-- Claim C9: RADIAL{copies = n} yields exactly n instances in both the
canvas renderer and the SVG exporter, instance i being the rotation by
`i * 360/n` degrees (`i * 2 pi / n` radians) about the viewport center with
phase offset `i * phaseShift`; MIRROR_XY yields exactly 4 instances and NONE
exactly 1, all with phase offset 0. -/
theorem c9_symmetry_instance_counts :
    (∀ (n : ℕ) (phi g sw w h : ℝ) (b : Option Bounds) (hp : Bool),
      (symmetryInstances ⟨.RADIAL, n, phi, g⟩ sw b hp w h).length = n ∧
      (svgSymmetryInstances ⟨.RADIAL, n, phi, g⟩ sw b w h).length = n ∧
      ∀ i, i < n →
        (symmetryInstances ⟨.RADIAL, n, phi, g⟩ sw b hp w h)[i]? =
          some ((i : ℝ) * phi,
            rotAbout ⟨w / 2, h / 2⟩ ((i : ℝ) * (2 * Real.pi / (n : ℝ)))) ∧
        (svgSymmetryInstances ⟨.RADIAL, n, phi, g⟩ sw b w h)[i]? =
          some ((i : ℝ) * phi,
            rotAbout ⟨w / 2, h / 2⟩ ((i : ℝ) * (2 * Real.pi / (n : ℝ))))) ∧
    (∀ (n : ℕ) (phi g sw w h : ℝ) (b : Option Bounds) (hp : Bool),
      (symmetryInstances ⟨.MIRROR_XY, n, phi, g⟩ sw b hp w h).length = 4 ∧
      (svgSymmetryInstances ⟨.MIRROR_XY, n, phi, g⟩ sw b w h).length = 4 ∧
      (symmetryInstances ⟨.MIRROR_XY, n, phi, g⟩ sw b hp w h).map Prod.fst
        = [0, 0, 0, 0] ∧
      (svgSymmetryInstances ⟨.MIRROR_XY, n, phi, g⟩ sw b w h).map Prod.fst
        = [0, 0, 0, 0]) ∧
    (∀ (n : ℕ) (phi g sw w h : ℝ) (b : Option Bounds) (hp : Bool),
      (symmetryInstances ⟨.NONE, n, phi, g⟩ sw b hp w h).length = 1 ∧
      (svgSymmetryInstances ⟨.NONE, n, phi, g⟩ sw b w h).length = 1 ∧
      (symmetryInstances ⟨.NONE, n, phi, g⟩ sw b hp w h).map Prod.fst = [0] ∧
      (svgSymmetryInstances ⟨.NONE, n, phi, g⟩ sw b w h).map Prod.fst = [0]) := by
  refine ⟨?_, ?_, ?_⟩
  · intro n phi g sw w h b hp
    refine ⟨?_, ?_, ?_⟩
    · simp only [symmetryInstances, List.length_map, List.length_range]
    · simp only [svgSymmetryInstances, List.length_map, List.length_range]
    · intro i hi
      constructor
      · simp only [symmetryInstances]
        rw [List.getElem?_map, List.getElem?_range hi]
        simp only [Option.map_some']
        rw [canvasRotate_eq]
      · simp only [svgSymmetryInstances]
        rw [List.getElem?_map, List.getElem?_range hi]
        simp only [Option.map_some']
        rw [svgRotate_as_radians]
  · intro n phi g sw w h b hp
    refine ⟨?_, ?_, ?_, ?_⟩ <;> simp [symmetryInstances, svgSymmetryInstances]
  · intro n phi g sw w h b hp
    refine ⟨?_, ?_, ?_, ?_⟩ <;> simp [symmetryInstances, svgSymmetryInstances]

/-- Witness for Claim C9 at a concrete radial configuration. -/
theorem c9_symmetry_instance_counts_witness :
    (symmetryInstances ⟨.RADIAL, 3, 1, 100⟩ 4 none false 200 100).length = 3 ∧
    (symmetryInstances ⟨.RADIAL, 3, 1, 100⟩ 4 none false 200 100)[2]? =
      some (((2 : ℕ) : ℝ) * 1,
        rotAbout ⟨200 / 2, 100 / 2⟩
          (((2 : ℕ) : ℝ) * (2 * Real.pi / ((3 : ℕ) : ℝ)))) := by
  obtain ⟨hr, -, -⟩ := c9_symmetry_instance_counts
  obtain ⟨h1, -, h3⟩ := hr 3 1 100 4 200 100 none false
  exact ⟨h1, (h3 2 (by norm_num)).1⟩

/-- Claim C3 is refuted by the code: the GRID cell range enumerated for
hit-testing is derived from the viewport only (`ceil(width/gap) + 1` in each
direction), while the range enumerated for rendering is derived from the
stroke bounds with padding `strokeWidth + 50`; with `gap = 100`, a 100x100
viewport, point bounds at the origin and `strokeWidth = 4`, the cell
`(-2, 0)` is hit-tested but never rendered. -/
theorem c3_grid_enumerations_differ :
    ((-2, 0) ∈ gridHitOffsets 100 100 100) ∧
    ((-2, 0) ∉ gridRenderOffsets 100 100 100 (4 + 50) 0 0 0 0) := by
  have hceil : (⌈(100 : ℝ) / 100⌉ : ℤ) = 1 := by norm_num
  have hfloor : (⌊(-(0 : ℝ) - (4 + 50)) / 100⌋ : ℤ) = -1 := by
    norm_num
  have hceil2 : (⌈((100 : ℝ) - 0 + (4 + 50)) / 100⌉ : ℤ) = 2 := by
    rw [Int.ceil_eq_iff]
    constructor <;> norm_num
  constructor
  · simp only [gridHitOffsets, hceil]
    decide
  · simp only [gridRenderOffsets, hfloor, hceil2]
    decide

theorem getLast?_take_succ {α : Type} (l : List α) (d : α) (i : ℕ) (h : i < l.length) :
    (l.take (i + 1)).getLast? = some (l.getD i d) := by
  rw [List.getLast?_eq_getElem?]
  have hlen : (l.take (i + 1)).length = i + 1 := by
    rw [List.length_take]
    omega
  rw [hlen]
  simp only [Nat.add_sub_cancel]
  rw [List.getElem?_take_of_succ, List.getElem?_eq_getElem h, List.getD_eq_getElem l d h]

theorem gpl_snoc (xs : List Point) (y a : Point) (h : xs.getLast? = some a) :
    getPathLength (xs ++ [y]) = getPathLength xs + dist a y := by
  induction xs with
  | nil => simp at h
  | cons b t ih =>
    cases t with
    | nil =>
        simp only [List.getLast?_singleton, Option.some.injEq] at h
        subst h
        simp [getPathLength]
    | cons c t2 =>
        have h' : (c :: t2).getLast? = some a := by
          rwa [List.getLast?_cons_cons] at h
        have e1 : getPathLength (b :: c :: t2 ++ [y])
            = dist b c + getPathLength ((c :: t2) ++ [y]) := by
          simp [getPathLength]
        have e2 : getPathLength (b :: c :: t2)
            = dist b c + getPathLength (c :: t2) := by
          simp [getPathLength]
        rw [e1, e2, ih h']
        ring

theorem cumAt_eq_pathLength_take (ps : List Point) :
    ∀ i, i < ps.length → cumAt ps i = getPathLength (ps.take (i + 1)) := by
  intro i
  induction i with
  | zero =>
      intro h
      cases ps with
      | nil => simp at h
      | cons a t => simp [cumAt, getPathLength]
  | succ k ihk =>
      intro h
      have hk : k < ps.length := by omega
      rw [cumAt, ihk hk]
      conv_rhs => rw [List.take_succ]
      rw [List.getElem?_eq_getElem h]
      simp only [Option.toList_some]
      rw [gpl_snoc _ _ (ps.getD k ⟨0, 0⟩) (getLast?_take_succ ps ⟨0, 0⟩ k hk)]
      rw [show ps.getD (k + 1) ⟨0, 0⟩ = ps[k + 1] from List.getD_eq_getElem ps ⟨0, 0⟩ h]

/-- Claim C6: for every canonical polyline with at least 2 points, the
ribbon's cumulativeLengths starts at 0, is non-decreasing, entry i is the
arc length of the first i+1 points, and the last entry is getPathLength of
the whole polyline. -/
theorem c6_cumulative_lengths :
    ∀ (points : List Point) (st : RibbonSettings), 2 ≤ points.length →
      (computeRibbon points st).cumulativeLengths.getD 0 0 = 0 ∧
      List.Chain' (· ≤ ·) (computeRibbon points st).cumulativeLengths ∧
      (∀ i, i < (computeRibbon points st).cumulativeLengths.length →
        (computeRibbon points st).cumulativeLengths.getD i 0
          = getPathLength (points.take (i + 1))) ∧
      (computeRibbon points st).cumulativeLengths.getLast?
        = some (getPathLength points) := by
  intro points st h2
  rw [computeRibbon, if_neg (by omega)]
  simp only
  refine ⟨?_, ?_, ?_, ?_⟩
  · rw [List.getD_eq_getElem _ _
      (show 0 < (List.map (cumAt points) (List.range points.length)).length from by
        simp only [List.length_map, List.length_range]; omega),
      List.getElem_map, List.getElem_range]
    rfl
  · rw [List.chain'_iff_get]
    intro i hi
    simp only [List.length_map, List.length_range] at hi
    rw [List.get_eq_getElem, List.get_eq_getElem, List.getElem_map, List.getElem_map,
      List.getElem_range, List.getElem_range]
    show cumAt points i ≤ cumAt points (i + 1)
    rw [cumAt]
    have := dist_nonneg' (points.getD i ⟨0, 0⟩) (points.getD (i + 1) ⟨0, 0⟩)
    linarith
  · intro i hi
    simp only [List.length_map, List.length_range] at hi
    rw [List.getD_eq_getElem _ _
      (show i < (List.map (cumAt points) (List.range points.length)).length from by
        simp only [List.length_map, List.length_range]; omega),
      List.getElem_map, List.getElem_range]
    exact cumAt_eq_pathLength_take points i hi
  · rw [List.getLast?_eq_getElem?]
    simp only [List.length_map, List.length_range]
    rw [List.getElem?_eq_getElem
      (show points.length - 1 < (List.map (cumAt points) (List.range points.length)).length from by
        simp only [List.length_map, List.length_range]; omega),
      List.getElem_map, List.getElem_range]
    have hlast := cumAt_eq_pathLength_take points (points.length - 1) (by omega)
    rw [hlast, show points.length - 1 + 1 = points.length from by omega, List.take_length]

/-- Witness for Claim C6 at a concrete two-point stroke. -/
theorem c6_cumulative_lengths_witness :
    (computeRibbon [(⟨0, 0⟩ : Point), ⟨3, 4⟩] ⟨4, 0, some .LINEAR⟩).cumulativeLengths.getD 0 0
      = 0 ∧
    (computeRibbon [(⟨0, 0⟩ : Point), ⟨3, 4⟩]
        ⟨4, 0, some .LINEAR⟩).cumulativeLengths.getLast?
      = some (getPathLength [(⟨0, 0⟩ : Point), ⟨3, 4⟩]) := by
  obtain ⟨ha, -, -, hd⟩ :=
    c6_cumulative_lengths [⟨0, 0⟩, ⟨3, 4⟩] ⟨4, 0, some .LINEAR⟩ (by simp)
  exact ⟨ha, hd⟩

theorem sublist_dropLast {α : Type} {l₁ l₂ : List α} (h : l₁.Sublist l₂) :
    l₁.dropLast.Sublist l₂.dropLast := by
  induction h with
  | slnil => simp
  | cons a h ih =>
      rename_i X Y
      by_cases hY : Y = []
      · subst hY
        rw [List.sublist_nil.mp h]
        simp
      · rw [List.dropLast_cons_of_ne_nil hY]
        exact ih.cons a
  | cons₂ a h ih =>
      rename_i X Y
      by_cases hX : X = []
      · subst hX
        simp
      · have hY : Y ≠ [] := by
          intro hc
          subst hc
          exact hX (List.sublist_nil.mp h)
        rw [List.dropLast_cons_of_ne_nil hX, List.dropLast_cons_of_ne_nil hY]
        exact ih.cons₂ a

theorem dropLast_take_succ {α : Type} (l : List α) :
    ∀ i, i < l.length → (l.take (i + 1)).dropLast = l.take i := by
  induction l with
  | nil => intro i h; simp at h
  | cons a t ih =>
      intro i h
      cases i with
      | zero => simp
      | succ n =>
          have hn : n < t.length := by
            simp only [List.length_cons] at h
            omega
          rw [List.take_succ_cons, List.take_succ_cons,
            List.dropLast_cons_of_ne_nil, ih n hn]
          intro hc
          have := congrArg List.length hc
          simp only [List.length_take, List.length_nil] at this
          omega

theorem rdpScan_index_mem (ps : List Point) (st en : Point)
    (h : 0 < (rdpScan ps st en).1) :
    1 ≤ (rdpScan ps st en).2 ∧ (rdpScan ps st en).2 < ps.length - 1 := by
  have key : ∀ (g : ℝ × ℕ → ℕ → ℝ × ℕ), (∀ acc i, g acc i = acc ∨ (g acc i).2 = i) →
      ∀ (l : List ℕ) (acc : ℝ × ℕ), List.foldl g acc l = acc ∨ (List.foldl g acc l).2 ∈ l := by
    intro g hg l
    induction l with
    | nil => intro acc; exact Or.inl rfl
    | cons x xs ih =>
      intro acc
      rcases ih (g acc x) with h | h
      · rw [List.foldl_cons, h]
        rcases hg acc x with h2 | h2
        · exact Or.inl h2
        · exact Or.inr (by rw [h2]; exact List.mem_cons_self x xs)
      · exact Or.inr (List.mem_cons_of_mem x h)
  have hsc : rdpScan ps st en = (0, 0) ∨
      (rdpScan ps st en).2 ∈ List.range' 1 (ps.length - 2) := by
    apply key
    intro acc i
    dsimp only
    split
    · exact Or.inr rfl
    · exact Or.inl rfl
  rcases hsc with heq | hmem
  · rw [heq] at h
    norm_num at h
  · rw [List.mem_range'] at hmem
    omega

theorem head?_eq_getD {α : Type} (l : List α) (d : α) (h : l ≠ []) :
    l.head? = some (l.getD 0 d) := by
  have h0 : 0 < l.length := List.length_pos.mpr h
  rw [List.head?_eq_getElem?, List.getElem?_eq_getElem h0, List.getD_eq_getElem l d h0]

theorem getLast?_eq_getD {α : Type} (l : List α) (d : α) (h : l ≠ []) :
    l.getLast? = some (l.getD (l.length - 1) d) := by
  have h0 : 0 < l.length := List.length_pos.mpr h
  rw [List.getLast?_eq_getElem?, List.getElem?_eq_getElem (by omega),
    List.getD_eq_getElem l d (by omega)]

theorem simplifyPoints_spec (tol : ℝ) :
    ∀ (n : ℕ) (ps : List Point), ps.length ≤ n → ps ≠ [] →
      (simplifyPoints ps tol).head? = ps.head? ∧
      (simplifyPoints ps tol).getLast? = ps.getLast? ∧
      (simplifyPoints ps tol).Sublist ps ∧
      (2 ≤ ps.length → 2 ≤ (simplifyPoints ps tol).length) := by
  intro n
  induction n with
  | zero =>
      intro ps h hne
      exact absurd (List.length_eq_zero.mp (Nat.le_zero.mp h)) hne
  | succ n ih =>
      intro ps hlen hne
      have hps0 : 0 < ps.length := List.length_pos.mpr hne
      rw [simplifyPoints]
      by_cases h0 : ps.length ≤ 2 ∨ tol ≤ 0
      · rw [dif_pos h0]
        exact ⟨rfl, rfl, List.Sublist.refl ps, fun h2 => h2⟩
      · rw [dif_neg h0]
        push_neg at h0
        obtain ⟨hlen3, htol⟩ := h0
        dsimp only
        split
        next hmd =>
          have hmd0 : 0 < (rdpScan ps (ps.getD 0 ⟨0, 0⟩)
              (ps.getD (ps.length - 1) ⟨0, 0⟩)).1 := lt_trans htol hmd
          obtain ⟨hidx1, hidx2⟩ := rdpScan_index_mem ps _ _ hmd0
          set idx := (rdpScan ps (ps.getD 0 ⟨0, 0⟩)
            (ps.getD (ps.length - 1) ⟨0, 0⟩)).2 with hidxdef
          have htk_len : (ps.take (idx + 1)).length = idx + 1 := by
            rw [List.length_take]
            omega
          have hdr_len : (ps.drop idx).length = ps.length - idx := by
            rw [List.length_drop]
          have htk_ne : ps.take (idx + 1) ≠ [] := by
            intro hc
            have := congrArg List.length hc
            rw [htk_len] at this
            simp at this
          have hdr_ne : ps.drop idx ≠ [] := by
            intro hc
            have := congrArg List.length hc
            rw [hdr_len] at this
            simp only [List.length_nil] at this
            omega
          obtain ⟨lh, -, ls, llen⟩ := ih (ps.take (idx + 1)) (by rw [htk_len]; omega) htk_ne
          obtain ⟨-, rl, rs, rlen⟩ := ih (ps.drop idx) (by rw [hdr_len]; omega) hdr_ne
          have hL2 : 2 ≤ (simplifyPoints (ps.take (idx + 1)) tol).length :=
            llen (by rw [htk_len]; omega)
          have hR2 : 2 ≤ (simplifyPoints (ps.drop idx) tol).length :=
            rlen (by rw [hdr_len]; omega)
          refine ⟨?_, ?_, ?_, fun _ => ?_⟩
          · rw [List.head?_append, List.head?_dropLast, if_pos (by omega), lh]
            have htt : (ps.take (idx + 1)).head? = ps.head? := by
              rw [List.head?_eq_getElem?, List.head?_eq_getElem?,
                List.getElem?_take_of_lt (by omega)]
            rw [htt, head?_eq_getD ps ⟨0, 0⟩ hne]
            rfl
          · rw [List.getLast?_append, rl, List.getLast?_drop, if_neg (by omega),
              getLast?_eq_getD ps ⟨0, 0⟩ hne]
            rfl
          · have h1 : (simplifyPoints (ps.take (idx + 1)) tol).dropLast.Sublist
                (ps.take idx) := by
              have hsub := sublist_dropLast ls
              rwa [dropLast_take_succ ps idx (by omega)] at hsub
            have hall := List.Sublist.append h1 rs
            rwa [List.take_append_drop] at hall
          · rw [List.length_append, List.length_dropLast]
            omega
        next hmd =>
          refine ⟨?_, ?_, ?_, fun _ => by simp⟩
          · rw [head?_eq_getD ps ⟨0, 0⟩ hne]
            rfl
          · rw [getLast?_eq_getD ps ⟨0, 0⟩ hne]
            rfl
          · obtain ⟨a, t, rfl⟩ : ∃ a t, ps = a :: t := by
              cases ps with
              | nil => exact absurd rfl hne
              | cons a t => exact ⟨a, t, rfl⟩
            have ht_ne : t ≠ [] := by
              intro hc
              subst hc
              simp at hlen3
            have hlast_t : (a :: t).getLast? = t.getLast? := by
              cases t with
              | nil => exact absurd rfl ht_ne
              | cons b t2 => exact List.getLast?_cons_cons
            have hmem : (a :: t).getD ((a :: t).length - 1) ⟨0, 0⟩ ∈ t := by
              apply List.mem_of_getLast?_eq_some
              rw [← hlast_t]
              exact getLast?_eq_getD _ _ (by simp)
            simp only [List.getD_cons_zero]
            exact List.Sublist.cons₂ a (List.singleton_sublist.mpr hmem)
/-- Claim C10: for every non-empty input and every tolerance, simplifyPoints
returns a list that begins with the input's first point, ends with the
input's last point, and is an ordered subsequence (Sublist) of the input. -/
theorem c10_simplify_subsequence :
    ∀ (ps : List Point) (tol : ℝ), ps ≠ [] →
      (simplifyPoints ps tol).head? = ps.head? ∧
      (simplifyPoints ps tol).getLast? = ps.getLast? ∧
      (simplifyPoints ps tol).Sublist ps := by
  intro ps tol hne
  obtain ⟨h1, h2, h3, -⟩ := simplifyPoints_spec tol ps.length ps le_rfl hne
  exact ⟨h1, h2, h3⟩

/-- Witness for Claim C10 at a concrete one-point input. -/
theorem c10_simplify_subsequence_witness :
    (simplifyPoints [(⟨0, 0⟩ : Point)] 1).head? = [(⟨0, 0⟩ : Point)].head? ∧
    (simplifyPoints [(⟨0, 0⟩ : Point)] 1).getLast? = [(⟨0, 0⟩ : Point)].getLast? ∧
    (simplifyPoints [(⟨0, 0⟩ : Point)] 1).Sublist [(⟨0, 0⟩ : Point)] :=
  c10_simplify_subsequence [⟨0, 0⟩] 1 (by simp)

theorem jsClamp_eq (x : ℝ) :
    max 0 (min 1 x) = if x < 0 then 0 else if x > 1 then 1 else x := by
  split_ifs with h1 h2
  · rw [min_eq_right (by linarith), max_eq_left (by linarith)]
  · rw [min_eq_left (by linarith)]
    norm_num
  · rw [min_eq_right (by linarith), max_eq_right (by linarith)]

/-- Claim C1: on any ribbon with at least 2 vertices and any window, the
interactive renderer's window extraction and the SVG exporter's window
extraction agree on everything: indices, clamped interpolation factors,
interpolated boundary points and the emitted whole vertices (forward left,
reverse right). The exporter differs syntactically only in using
`Math.max(0, Math.min(1, t))` where the renderer uses the ternary clamp, and
in not re-checking the vertex-count guard. -/
theorem c1_window_extraction_equiv :
    ∀ (pre : PrecomputedRibbon) (startLength endLength : ℝ),
      2 ≤ pre.left.length →
      windowCanvas pre startLength endLength = windowSvg pre startLength endLength := by
  intro pre s e h2
  rw [windowCanvas, windowSvg, if_neg (by omega : ¬ pre.left.length < 2)]
  by_cases he : e ≤ s
  · rw [if_pos he, if_pos he]
  · rw [if_neg he, if_neg he]
    simp only [jsClamp_eq]

/-- Witness for Claim C1 at a concrete three-vertex ribbon and window. -/
theorem c1_window_extraction_equiv_witness :
    windowCanvas
        ⟨[⟨0, 0⟩, ⟨1, 0⟩, ⟨2, 0⟩], [⟨0, 1⟩, ⟨1, 1⟩, ⟨2, 1⟩], [0, 1, 2], none⟩
        (1 / 2) (3 / 2)
      = windowSvg
        ⟨[⟨0, 0⟩, ⟨1, 0⟩, ⟨2, 0⟩], [⟨0, 1⟩, ⟨1, 1⟩, ⟨2, 1⟩], [0, 1, 2], none⟩
        (1 / 2) (3 / 2) :=
  c1_window_extraction_equiv
    ⟨[⟨0, 0⟩, ⟨1, 0⟩, ⟨2, 0⟩], [⟨0, 1⟩, ⟨1, 1⟩, ⟨2, 1⟩], [0, 1, 2], none⟩
    (1 / 2) (3 / 2) (by simp)

theorem getIndexForLengthGo_eq (lengths : List ℝ) (target : ℝ) (K : ℕ)
    (hmono : ∀ i j, i ≤ j → j < lengths.length → lengths.getD i 0 ≤ lengths.getD j 0)
    (hKlen : K < lengths.length)
    (hKle : lengths.getD K 0 ≤ target)
    (hKgt : ∀ j, K < j → j < lengths.length → target < lengths.getD j 0) :
    ∀ (fuel ans l r : ℕ), r + 1 - l ≤ fuel → l ≤ K + 1 → K ≤ r →
      r ≤ lengths.length - 1 → (ans = K ∨ (ans ≤ K ∧ l ≤ K)) →
      getIndexForLengthGo lengths target ans l r = K := by
  intro fuel
  induction fuel with
  | zero =>
      intro ans l r hf h1 h2 h3 h4
      rw [getIndexForLengthGo, if_neg (by omega : ¬ l ≤ r)]
      rcases h4 with h | ⟨ha, hl⟩
      · exact h
      · omega
  | succ n ihf =>
      intro ans l r hf h1 h2 h3 h4
      rw [getIndexForLengthGo]
      by_cases hlr : l ≤ r
      · rw [if_pos hlr]
        dsimp only
        have hl_mid : l ≤ (l + r) / 2 := by omega
        have hmid_r : (l + r) / 2 ≤ r := by omega
        have hmidlen : (l + r) / 2 < lengths.length := by omega
        by_cases hle : lengths.getD ((l + r) / 2) 0 ≤ target
        · rw [if_pos hle]
          have hmidK : (l + r) / 2 ≤ K := by
            by_contra hcon
            push_neg at hcon
            exact absurd hle (not_le.mpr (hKgt _ hcon hmidlen))
          apply ihf
          · omega
          · omega
          · exact h2
          · exact h3
          · by_cases hmK : (l + r) / 2 = K
            · exact Or.inl hmK
            · exact Or.inr ⟨hmidK, by omega⟩
        · rw [if_neg hle]
          have hKmid : K < (l + r) / 2 := by
            by_contra hcon
            push_neg at hcon
            exact hle (le_trans (hmono _ K hcon hKlen) hKle)
          split
          next hzero => omega
          next m hm =>
            apply ihf
            · omega
            · exact h1
            · omega
            · omega
            · exact h4
      · rw [if_neg hlr]
        rcases h4 with h | ⟨ha, hl⟩
        · exact h
        · omega

/-- Claim C5: on a non-decreasing, non-empty lengths array with
`lengths[0] <= target < lengths[last]`, getIndexForLength returns the index
i with `lengths[i] <= target < lengths[i+1]` (with `i+1` still a valid
index), and i is the highest index whose entry does not exceed the target. -/
theorem c5_getIndexForLength_correct :
    ∀ (lengths : List ℝ) (target : ℝ),
      lengths.Sorted (· ≤ ·) → lengths ≠ [] →
      lengths.getD 0 0 ≤ target →
      target < lengths.getD (lengths.length - 1) 0 →
      lengths.getD (getIndexForLength lengths target) 0 ≤ target ∧
      target < lengths.getD (getIndexForLength lengths target + 1) 0 ∧
      getIndexForLength lengths target + 1 ≤ lengths.length - 1 ∧
      (∀ j, j < lengths.length → lengths.getD j 0 ≤ target →
        j ≤ getIndexForLength lengths target) := by
  intro lengths target hsort hne h0 hlast
  have hlen0 : 0 < lengths.length := List.length_pos.mpr hne
  have hmono : ∀ i j, i ≤ j → j < lengths.length →
      lengths.getD i 0 ≤ lengths.getD j 0 := by
    intro i j hij hj
    rcases eq_or_lt_of_le hij with rfl | hlt
    · exact le_refl _
    · have hi : i < lengths.length := by omega
      have := @List.Sorted.rel_get_of_lt _ _ _ hsort ⟨i, hi⟩ ⟨j, hj⟩ hlt
      rw [List.getD_eq_getElem _ _ hi, List.getD_eq_getElem _ _ hj]
      simpa [List.get_eq_getElem] using this
  set K := Nat.findGreatest (fun j => lengths.getD j 0 ≤ target)
    (lengths.length - 1) with hK
  have hPK : lengths.getD K 0 ≤ target := by
    rw [hK]
    exact @Nat.findGreatest_spec 0 (fun j => lengths.getD j 0 ≤ target) _
      (lengths.length - 1) (Nat.zero_le _) h0
  have hKb : K ≤ lengths.length - 1 := Nat.findGreatest_le _
  have hKne : K ≠ lengths.length - 1 := by
    intro hc
    rw [hc] at hPK
    linarith
  have hKlt : K < lengths.length - 1 := by omega
  have hKgt : ∀ j, K < j → j < lengths.length → target < lengths.getD j 0 := by
    intro j hKj hj
    have hnp := Nat.findGreatest_is_greatest hKj (by omega)
    exact not_le.mp hnp
  have hmain := getIndexForLengthGo_eq lengths target K hmono (by omega) hPK hKgt
    (lengths.length - 1 + 1) 0 0 (lengths.length - 1) (by omega) (by omega)
    (by omega) le_rfl (Or.inr ⟨Nat.zero_le K, Nat.zero_le K⟩)
  rw [getIndexForLength, hmain]
  refine ⟨hPK, hKgt (K + 1) (by omega) (by omega), by omega, ?_⟩
  intro j hj hPj
  by_contra hcon
  push_neg at hcon
  exact absurd hPj (not_le.mpr (hKgt j hcon hj))

/-- Witness for Claim C5 at a concrete sorted array and target. -/
theorem c5_getIndexForLength_correct_witness :
    ([0, 1, 2] : List ℝ).getD (getIndexForLength [0, 1, 2] (3 / 2)) 0 ≤ 3 / 2 ∧
    (3 / 2 : ℝ) < ([0, 1, 2] : List ℝ).getD
      (getIndexForLength [0, 1, 2] (3 / 2) + 1) 0 ∧
    getIndexForLength [0, 1, 2] (3 / 2) + 1 ≤ ([0, 1, 2] : List ℝ).length - 1 := by
  obtain ⟨h1, h2, h3, -⟩ := c5_getIndexForLength_correct [0, 1, 2] (3 / 2)
    (by norm_num [List.sorted_cons]) (by simp)
    (by norm_num) (by norm_num)
  exact ⟨h1, h2, h3⟩

end

end ChronoSketch
